import Mathlib

/-!
Verification of the `ipmipower` program (Go, `main.go`): a Wake-on-LAN to IPMI
bridge.  The program listens for WoL magic packets on a UDP port and, on a
valid packet for the configured target MAC address, connects to a BMC and
issues a chassis power-up command if (and only if) the chassis is reported
powered off.

This file shallowly embeds the relevant parts of the source:

* `isValidWOLPacket` — the magic-packet validator (`main.go`), with bytes
  modelled as `Nat` and byte slices as `List Nat`; the two index loops are
  modelled by structurally recursive functions whose counter argument is the
  number of remaining iterations.  Out-of-range Go indexing would panic; the
  plain model uses `List.getD _ _ 0` while `isValidWOLPacketChecked` models
  Go's bounds-checked accesses with `Option` (`none` = panic).
* `parseMAC` — MAC-address parsing (`main.go`), which rewrites `-` to `:` and
  calls Go's `net.ParseMAC` (embedded as `ParseMAC`/`xtoi2` below, following
  the Go standard library source it delegates to).
* `sendIPMIPowerOn` — the power-on orchestration (`main.go`), embedded as a
  function of an abstract controller model `BMC` that fixes the outcome of
  each external call; it returns the code-level result together with the
  ordered trace of controller operations performed.
* the configuration resolution in `main` (`main.go`).
-/

namespace Ipmipower

/-! ### Magic-packet validation (`isValidWOLPacket`, main.go)

Go source:

```
func isValidWOLPacket(data []byte, targetMAC []byte) bool {
    if len(data) != 102 {
        return false
    }
    for i := 0; i < 6; i++ {
        if data[i] != 0xFF {
            return false
        }
    }
    for i := 0; i < 16; i++ {
        for j := 0; j < 6; j++ {
            if data[6+i*6+j] != targetMAC[j] {
                return false
            }
        }
    }
    return true
}
```
-/

/-- The header loop of `isValidWOLPacket`: starting at index `i` with `k`
iterations remaining, check that each byte is `0xFF`. -/
def wolHeader (data : List Nat) : Nat → Nat → Bool
  | _, 0 => true
  | i, k + 1 => if data.getD i 0 == 255 then wolHeader data (i + 1) k else false

/-- The inner loop of `isValidWOLPacket` for repetition `i`: starting at
offset `j` with `k` iterations remaining, compare packet byte `6 + i*6 + j`
with `targetMAC[j]`. -/
def wolRep (data target : List Nat) (i : Nat) : Nat → Nat → Bool
  | _, 0 => true
  | j, k + 1 =>
    if data.getD (6 + i * 6 + j) 0 == target.getD j 0 then
      wolRep data target i (j + 1) k
    else false

/-- The outer loop of `isValidWOLPacket`: repetitions `i` with `k` remaining. -/
def wolReps (data target : List Nat) : Nat → Nat → Bool
  | _, 0 => true
  | i, k + 1 => if wolRep data target i 0 6 then wolReps data target (i + 1) k else false

/-- `isValidWOLPacket` (main.go): a datagram is a valid WoL magic packet for
`targetMAC` iff it is exactly 102 bytes, starts with 6 bytes `0xFF`, and
continues with 16 repetitions of the first 6 target bytes. -/
def isValidWOLPacket (data targetMAC : List Nat) : Bool :=
  if data.length ≠ 102 then false
  else wolHeader data 0 6 && wolReps data targetMAC 0 16

/-- `n` consecutive repetitions of a byte sequence. -/
def repeatList (mac : List Nat) : Nat → List Nat
  | 0 => []
  | n + 1 => mac ++ repeatList mac n

/-- The canonical WoL magic packet for a MAC address: 6 bytes `0xFF` followed
by 16 repetitions of the address (spec §4.2 / glossary). -/
def magicPacket (mac : List Nat) : List Nat :=
  List.replicate 6 255 ++ repeatList mac 16

/-- The UDP receive-loop acceptance test (main.go, main):
`n >= 102 && isValidWOLPacket(buffer[:102], targetMAC)`, where `n` is the
datagram length and `buffer[:102]` its first 102 bytes. -/
def udpAccepts (datagram target : List Nat) : Bool :=
  decide (102 ≤ datagram.length) && isValidWOLPacket (datagram.take 102) target

/-! #### Basic facts about the loops -/

theorem wolHeader_eq_true (data : List Nat) :
    ∀ k i, wolHeader data i k = true ↔ ∀ t, t < k → data.getD (i + t) 0 = 255 := by
  intro k
  induction k with
  | zero =>
    intro i
    constructor
    · intro _ t ht; exact absurd ht (by omega)
    · intro _; rfl
  | succ k ih =>
    intro i
    simp only [wolHeader]
    by_cases hb : data.getD i 0 = 255
    · simp only [hb, beq_self_eq_true, if_true, ih (i + 1)]
      constructor
      · intro h t ht
        match t with
        | 0 => simpa using hb
        | t + 1 =>
          have := h t (by omega)
          rw [show i + (t + 1) = i + 1 + t by omega]
          exact this
      · intro h t ht
        have := h (t + 1) (by omega)
        rw [show i + 1 + t = i + (t + 1) by omega]
        exact this
    · simp only [beq_iff_eq, hb, if_false]
      constructor
      · intro h; exact absurd h (by simp)
      · intro h
        exact absurd (by simpa using h 0 (by omega)) hb

theorem wolRep_eq_true (data target : List Nat) (i : Nat) :
    ∀ k j, wolRep data target i j k = true ↔
      ∀ s, s < k → data.getD (6 + i * 6 + (j + s)) 0 = target.getD (j + s) 0 := by
  intro k
  induction k with
  | zero =>
    intro j
    constructor
    · intro _ s hs; exact absurd hs (by omega)
    · intro _; rfl
  | succ k ih =>
    intro j
    simp only [wolRep]
    by_cases hb : data.getD (6 + i * 6 + j) 0 = target.getD j 0
    · simp only [hb, beq_self_eq_true, if_true, ih (j + 1)]
      constructor
      · intro h s hs
        match s with
        | 0 => simpa using hb
        | s + 1 =>
          have := h s (by omega)
          rw [show j + (s + 1) = j + 1 + s by omega]
          exact this
      · intro h s hs
        have := h (s + 1) (by omega)
        rw [show j + 1 + s = j + (s + 1) by omega]
        exact this
    · simp only [beq_iff_eq, hb, if_false]
      constructor
      · intro h; exact absurd h (by simp)
      · intro h
        exact absurd (by simpa using h 0 (by omega)) hb

theorem wolReps_eq_true (data target : List Nat) :
    ∀ k i, wolReps data target i k = true ↔
      ∀ s, s < k → ∀ j, j < 6 →
        data.getD (6 + (i + s) * 6 + j) 0 = target.getD j 0 := by
  intro k
  induction k with
  | zero =>
    intro i
    constructor
    · intro _ s hs; exact absurd hs (by omega)
    · intro _; rfl
  | succ k ih =>
    intro i
    simp only [wolReps]
    by_cases hb : wolRep data target i 0 6 = true
    · simp only [hb, if_true, ih (i + 1)]
      have hrep := (wolRep_eq_true data target i 6 0).mp hb
      constructor
      · intro h s hs j hj
        match s with
        | 0 => simpa using hrep j hj
        | s + 1 =>
          have := h s (by omega) j hj
          rw [show i + (s + 1) = i + 1 + s by omega]
          exact this
      · intro h s hs j hj
        have := h (s + 1) (by omega) j hj
        rw [show i + 1 + s = i + (s + 1) by omega]
        exact this
    · rw [if_neg hb]
      constructor
      · intro h; exact absurd h (by simp)
      · intro h
        exfalso
        apply hb
        rw [wolRep_eq_true]
        intro s hs
        simpa using h 0 (by omega) s hs

/-- Propositional characterisation of `isValidWOLPacket`. -/
theorem isValidWOLPacket_eq_true (data target : List Nat) :
    isValidWOLPacket data target = true ↔
      data.length = 102 ∧ (∀ i, i < 6 → data.getD i 0 = 255) ∧
        ∀ i, i < 16 → ∀ j, j < 6 →
          data.getD (6 + i * 6 + j) 0 = target.getD j 0 := by
  unfold isValidWOLPacket
  by_cases hl : data.length = 102
  · simp only [hl, ne_eq, not_true_eq_false, if_false, Bool.and_eq_true,
      wolHeader_eq_true, wolReps_eq_true, true_and]
    constructor
    · rintro ⟨h1, h2⟩
      refine ⟨?_, ?_⟩
      · intro i hi; simpa using h1 i hi
      · intro i hi j hj; simpa using h2 i hi j hj
    · rintro ⟨h1, h2⟩
      refine ⟨?_, ?_⟩
      · intro t ht; simpa using h1 t ht
      · intro s hs j hj; simpa using h2 s hs j hj
  · simp [hl]

/-! #### The canonical packet -/

theorem repeatList_length (mac : List Nat) : ∀ n, (repeatList mac n).length = n * mac.length := by
  intro n
  induction n with
  | zero => simp [repeatList]
  | succ n ih =>
    simp only [repeatList, List.length_append, ih]
    ring

theorem repeatList_getD (mac : List Nat) :
    ∀ n t, t < n * mac.length →
      (repeatList mac n).getD t 0 = mac.getD (t % mac.length) 0 := by
  intro n
  induction n with
  | zero => intro t ht; exact absurd ht (by simp)
  | succ n ih =>
    intro t ht
    simp only [repeatList]
    rcases Nat.lt_or_ge t mac.length with h | h
    · rw [List.getD_append _ _ _ _ h, Nat.mod_eq_of_lt h]
    · rw [List.getD_append_right _ _ _ _ h]
      have h1 : t - mac.length < n * mac.length := by
        have hs : (n + 1) * mac.length = n * mac.length + mac.length :=
          Nat.succ_mul n mac.length
        omega
      rw [ih (t - mac.length) h1, ← Nat.mod_eq_sub_mod h]

theorem magicPacket_length (mac : List Nat) (hm : mac.length = 6) :
    (magicPacket mac).length = 102 := by
  simp [magicPacket, repeatList_length, hm]

theorem magicPacket_getD_header (mac : List Nat) (k : Nat) (hk : k < 6) :
    (magicPacket mac).getD k 0 = 255 := by
  unfold magicPacket
  rw [List.getD_append _ _ _ _ (by simpa using hk)]
  rw [List.getD_eq_getElem _ _ (by simpa using hk)]
  exact List.getElem_replicate _ _

theorem magicPacket_getD_rep (mac : List Nat) (hm : mac.length = 6) (t : Nat) (ht : t < 96) :
    (magicPacket mac).getD (6 + t) 0 = mac.getD (t % 6) 0 := by
  unfold magicPacket
  rw [List.getD_append_right _ _ _ _ (by simp)]
  have : 6 + t - (List.replicate 6 (255 : Nat)).length = t := by simp
  rw [this, repeatList_getD mac 16 t (by omega : t < 16 * mac.length), hm]

/-- Central characterisation: for a 6-byte target, a datagram is valid iff it
is exactly the canonical magic packet. -/
theorem isValidWOLPacket_iff_eq (data mac : List Nat) (hm : mac.length = 6) :
    isValidWOLPacket data mac = true ↔ data = magicPacket mac := by
  rw [isValidWOLPacket_eq_true]
  constructor
  · rintro ⟨hl, hhead, hrep⟩
    apply List.ext_getElem (by rw [hl, magicPacket_length mac hm])
    intro n h1 h2
    rw [← List.getD_eq_getElem data 0 h1, ← List.getD_eq_getElem (magicPacket mac) 0 h2]
    rw [hl] at h1
    rcases Nat.lt_or_ge n 6 with h | h
    · rw [hhead n h, magicPacket_getD_header mac n h]
    · have hn : n = 6 + (n - 6) := by omega
      rw [hn, magicPacket_getD_rep mac hm (n - 6) (by omega)]
      have := hrep ((n - 6) / 6) (by omega) ((n - 6) % 6) (by omega)
      rw [show 6 + (n - 6) / 6 * 6 + (n - 6) % 6 = 6 + (n - 6) by omega] at this
      exact this
  · intro h
    subst h
    refine ⟨magicPacket_length mac hm, ?_, ?_⟩
    · intro i hi; exact magicPacket_getD_header mac i hi
    · intro i hi j hj
      have := magicPacket_getD_rep mac hm (i * 6 + j) (by omega)
      rw [show 6 + (i * 6 + j) = 6 + i * 6 + j by omega] at this
      rw [this, show (i * 6 + j) % 6 = j by omega]

/-! #### Bounds-checked model of the validator

Go slice indexing panics when out of range.  The `…Checked` functions perform
exactly the same accesses in the same order as the loops above, but through
`List.getElem?`; a `none` result marks an access a Go run would panic on. -/

/-- Header loop with bounds-checked accesses. -/
def wolHeaderChecked (data : List Nat) : Nat → Nat → Option Bool
  | _, 0 => some true
  | i, k + 1 =>
    match data[i]? with
    | none => none
    | some b => if b == 255 then wolHeaderChecked data (i + 1) k else some false

/-- Inner repetition loop with bounds-checked accesses; the packet byte is
read before the target byte, as in the Go expression
`data[6+i*6+j] != targetMAC[j]`. -/
def wolRepChecked (data target : List Nat) (i : Nat) : Nat → Nat → Option Bool
  | _, 0 => some true
  | j, k + 1 =>
    match data[6 + i * 6 + j]? with
    | none => none
    | some d =>
      match target[j]? with
      | none => none
      | some t => if d == t then wolRepChecked data target i (j + 1) k else some false

/-- Outer repetition loop with bounds-checked accesses. -/
def wolRepsChecked (data target : List Nat) : Nat → Nat → Option Bool
  | _, 0 => some true
  | i, k + 1 =>
    match wolRepChecked data target i 0 6 with
    | none => none
    | some r => if r then wolRepsChecked data target (i + 1) k else some false

/-- `isValidWOLPacket` with bounds-checked accesses. -/
def isValidWOLPacketChecked (data targetMAC : List Nat) : Option Bool :=
  if data.length ≠ 102 then some false
  else
    match wolHeaderChecked data 0 6 with
    | none => none
    | some h =>
      if h then
        match wolRepsChecked data targetMAC 0 16 with
        | none => none
        | some r => some r
      else some false

theorem wolHeaderChecked_eq (data : List Nat) :
    ∀ k i, i + k ≤ data.length →
      wolHeaderChecked data i k = some (wolHeader data i k) := by
  intro k
  induction k with
  | zero => intro i _; rfl
  | succ k ih =>
    intro i hik
    have hi : i < data.length := by omega
    simp only [wolHeaderChecked, wolHeader, List.getElem?_eq_getElem hi,
      ← List.getD_eq_getElem data 0 hi]
    cases hbeq : data.getD i 0 == 255 <;> simp [ih (i + 1) (by omega)]

theorem wolRepChecked_eq (data target : List Nat) (i : Nat)
    (hdl : data.length = 102) (htl : 6 ≤ target.length) (hi : i < 16) :
    ∀ k j, j + k ≤ 6 →
      wolRepChecked data target i j k = some (wolRep data target i j k) := by
  intro k
  induction k with
  | zero => intro j _; rfl
  | succ k ih =>
    intro j hjk
    have hd : 6 + i * 6 + j < data.length := by omega
    have ht : j < target.length := by omega
    simp only [wolRepChecked, wolRep, List.getElem?_eq_getElem hd,
      List.getElem?_eq_getElem ht, ← List.getD_eq_getElem data 0 hd,
      ← List.getD_eq_getElem target 0 ht]
    cases hbeq : data.getD (6 + i * 6 + j) 0 == target.getD j 0 <;>
      simp [ih (j + 1) (by omega)]

theorem wolRepsChecked_eq (data target : List Nat)
    (hdl : data.length = 102) (htl : 6 ≤ target.length) :
    ∀ k i, i + k ≤ 16 →
      wolRepsChecked data target i k = some (wolReps data target i k) := by
  intro k
  induction k with
  | zero => intro i _; rfl
  | succ k ih =>
    intro i hik
    simp only [wolRepsChecked, wolReps,
      wolRepChecked_eq data target i hdl htl (by omega) 6 0 (by omega)]
    by_cases hb : wolRep data target i 0 6 = true
    · simp only [hb, if_true]
      exact ih (i + 1) (by omega)
    · rw [if_neg hb, Bool.not_eq_true] at *
      simp [hb]

/-- Whenever the target has at least 6 bytes, every access of the validator is
in bounds: the checked run returns a value instead of panicking, and that
value is the one `isValidWOLPacket` computes. -/
theorem isValidWOLPacketChecked_eq (data target : List Nat) (htl : 6 ≤ target.length) :
    isValidWOLPacketChecked data target = some (isValidWOLPacket data target) := by
  unfold isValidWOLPacketChecked isValidWOLPacket
  by_cases hl : data.length = 102
  · simp only [hl, ne_eq, not_true_eq_false, if_false,
      wolHeaderChecked_eq data 6 0 (by omega),
      wolRepsChecked_eq data target hl htl 16 0 (by omega)]
    by_cases hh : wolHeader data 0 6 = true
    · simp [hh]
    · rw [Bool.not_eq_true] at hh
      simp [hh]
  · simp [hl]

/-! #### The validator only reads the first six target bytes -/

theorem getD_take_of_lt (t : List Nat) (n j : Nat) (hj : j < n) :
    (t.take n).getD j 0 = t.getD j 0 := by
  simp [List.getD_eq_getElem?_getD, List.getElem?_take_of_lt hj]

theorem wolRep_take (data target : List Nat) (i : Nat) :
    ∀ k j, j + k ≤ 6 →
      wolRep data (target.take 6) i j k = wolRep data target i j k := by
  intro k
  induction k with
  | zero => intro j _; rfl
  | succ k ih =>
    intro j hjk
    simp only [wolRep, getD_take_of_lt target 6 j (by omega)]
    cases hbeq : data.getD (6 + i * 6 + j) 0 == target.getD j 0 <;>
      simp [ih (j + 1) (by omega)]

theorem wolReps_take (data target : List Nat) :
    ∀ k i, wolReps data (target.take 6) i k = wolReps data target i k := by
  intro k
  induction k with
  | zero => intro i; rfl
  | succ k ih =>
    intro i
    simp only [wolReps, wolRep_take data target i 6 0 (by omega), ih (i + 1)]

/-- The validator's verdict depends only on the first six bytes of the target
address. -/
theorem isValidWOLPacket_take (data target : List Nat) :
    isValidWOLPacket data (target.take 6) = isValidWOLPacket data target := by
  unfold isValidWOLPacket
  rw [wolReps_take]

/-! ### MAC-address parsing (`parseMAC`, main.go)

`parseMAC` rewrites every `-` to `:` and delegates to `net.ParseMAC` from the
Go standard library, embedded here over `List Char`.  `net.ParseMAC` accepts
colon/hyphen-separated two-digit hex groups and dot-separated four-digit hex
groups, for addresses of 6, 8 (EUI-64) or 20 (InfiniBand) bytes. -/

/-- Value of a hex digit (Go `xtoi`'s per-character test). -/
def hexDigitVal (c : Char) : Option Nat :=
  if '0' ≤ c ∧ c ≤ '9' then some (c.toNat - '0'.toNat)
  else if 'a' ≤ c ∧ c ≤ 'f' then some (c.toNat - 'a'.toNat + 10)
  else if 'A' ≤ c ∧ c ≤ 'F' then some (c.toNat - 'A'.toNat + 10)
  else none

/-- Go `net.xtoi2(s, e)`: parse the first two characters of `s` as a hex
byte, requiring any third character to equal `e`. -/
def xtoi2 (s : List Char) (e : Char) : Option Nat :=
  match s with
  | c1 :: c2 :: rest =>
    if rest ≠ [] ∧ rest.getD 0 ' ' ≠ e then none
    else
      match hexDigitVal c1, hexDigitVal c2 with
      | some h1, some h2 => some (h1 * 16 + h2)
      | _, _ => none
  | _ => none

/-- The separator-format loop of `net.ParseMAC`: `k` octets remaining, next
octet at character offset `x`, separator `e`. -/
def parseOctets (s : List Char) (e : Char) : Nat → Nat → Option (List Nat)
  | 0, _ => some []
  | k + 1, x =>
    match xtoi2 (s.drop x) e with
    | none => none
    | some b =>
      match parseOctets s e k (x + 3) with
      | none => none
      | some rest => some (b :: rest)

/-- The dot-format loop of `net.ParseMAC`: `k` four-digit groups remaining
(two bytes each), next group at character offset `x`. -/
def parseDotOctets (s : List Char) : Nat → Nat → Option (List Nat)
  | 0, _ => some []
  | k + 1, x =>
    match xtoi2 ((s.drop x).take 2) (Char.ofNat 0) with
    | none => none
    | some b1 =>
      match xtoi2 (s.drop (x + 2)) '.' with
      | none => none
      | some b2 =>
        match parseDotOctets s k (x + 5) with
        | none => none
        | some rest => some (b1 :: b2 :: rest)

/-- Go `net.ParseMAC`. -/
def ParseMAC (s : List Char) : Option (List Nat) :=
  if s.length < 14 then none
  else if s.getD 2 ' ' = ':' ∨ s.getD 2 ' ' = '-' then
    if (s.length + 1) % 3 ≠ 0 then none
    else
      let n := (s.length + 1) / 3
      if n ≠ 6 ∧ n ≠ 8 ∧ n ≠ 20 then none
      else parseOctets s (s.getD 2 ' ') n 0
  else if s.getD 4 ' ' = '.' then
    if (s.length + 1) % 5 ≠ 0 then none
    else
      let n := 2 * (s.length + 1) / 5
      if n ≠ 6 ∧ n ≠ 8 ∧ n ≠ 20 then none
      else parseDotOctets s (n / 2) 0
  else none

/-- `parseMAC` (main.go): `strings.ReplaceAll(macStr, "-", ":")` followed by
`net.ParseMAC`. -/
def parseMAC (s : List Char) : Option (List Nat) :=
  ParseMAC (s.map fun c => if c = '-' then ':' else c)

theorem parseOctets_length (s : List Char) (e : Char) :
    ∀ k x l, parseOctets s e k x = some l → l.length = k := by
  intro k
  induction k with
  | zero =>
    intro x l h
    simp only [parseOctets] at h
    cases h
    rfl
  | succ k ih =>
    intro x l h
    simp only [parseOctets] at h
    cases h1 : xtoi2 (s.drop x) e with
    | none => rw [h1] at h; cases h
    | some b =>
      rw [h1] at h
      cases h2 : parseOctets s e k (x + 3) with
      | none => rw [h2] at h; cases h
      | some rest =>
        rw [h2] at h
        cases h
        simp [ih (x + 3) rest h2]

theorem parseDotOctets_length (s : List Char) :
    ∀ k x l, parseDotOctets s k x = some l → l.length = 2 * k := by
  intro k
  induction k with
  | zero =>
    intro x l h
    simp only [parseDotOctets] at h
    cases h
    rfl
  | succ k ih =>
    intro x l h
    simp only [parseDotOctets] at h
    cases h1 : xtoi2 ((s.drop x).take 2) (Char.ofNat 0) with
    | none => rw [h1] at h; cases h
    | some b1 =>
      rw [h1] at h
      cases h2 : xtoi2 (s.drop (x + 2)) '.' with
      | none => rw [h2] at h; cases h
      | some b2 =>
        rw [h2] at h
        cases h3 : parseDotOctets s k (x + 5) with
        | none => rw [h3] at h; cases h
        | some rest =>
          rw [h3] at h
          cases h
          have := ih (x + 5) rest h3
          simp only [List.length_cons, this]
          omega

/-- Every successful `ParseMAC` run yields 6, 8 or 20 bytes. -/
theorem ParseMAC_length (s : List Char) (l : List Nat) (h : ParseMAC s = some l) :
    l.length = 6 ∨ l.length = 8 ∨ l.length = 20 := by
  unfold ParseMAC at h
  by_cases h14 : s.length < 14
  · rw [if_pos h14] at h; cases h
  · rw [if_neg h14] at h
    by_cases hc : s.getD 2 ' ' = ':' ∨ s.getD 2 ' ' = '-'
    · rw [if_pos hc] at h
      by_cases h3 : (s.length + 1) % 3 ≠ 0
      · rw [if_pos h3] at h; cases h
      · rw [if_neg h3] at h
        simp only at h
        by_cases hn : (s.length + 1) / 3 ≠ 6 ∧ (s.length + 1) / 3 ≠ 8 ∧ (s.length + 1) / 3 ≠ 20
        · rw [if_pos hn] at h; cases h
        · rw [if_neg hn] at h
          have := parseOctets_length s (s.getD 2 ' ') ((s.length + 1) / 3) 0 l h
          omega
    · rw [if_neg hc] at h
      by_cases hd : s.getD 4 ' ' = '.'
      · rw [if_pos hd] at h
        by_cases h5 : (s.length + 1) % 5 ≠ 0
        · rw [if_pos h5] at h; cases h
        · rw [if_neg h5] at h
          simp only at h
          by_cases hn : 2 * (s.length + 1) / 5 ≠ 6 ∧ 2 * (s.length + 1) / 5 ≠ 8 ∧
              2 * (s.length + 1) / 5 ≠ 20
          · rw [if_pos hn] at h; cases h
          · rw [if_neg hn] at h
            have := parseDotOctets_length s (2 * (s.length + 1) / 5 / 2) 0 l h
            omega
      · rw [if_neg hd] at h
        cases h

/-! ### Power-on orchestration (`sendIPMIPowerOn`, main.go)

The controller collaborator is abstracted by a `BMC` model fixing the result
of each external call the function can make:

```
client, err := ipmi.NewClient(host, port, username, password)   -- clientOk
if err := client.Connect(ctx); err != nil { ... }               -- connectOk
defer client.Close(ctx)                                          -- (after Connect succeeds)
status, err := client.GetChassisStatus(ctx)                      -- statusOk / powerIsOn
client.ChassisControl(ctx, ipmi.ChassisControlPowerUp)           -- powerUpOk
```

`sendIPMIPowerOn` returns the code-level result (which `error`, if any, the
Go function returns) together with the ordered trace of controller
operations performed; the deferred `Close` is appended on every return path
reached after `Connect` succeeded. -/

/-- Abstract model of one call's interaction with the controller. -/
structure BMC where
  clientOk : Bool
  connectOk : Bool
  statusOk : Bool
  powerIsOn : Bool
  powerUpOk : Bool
deriving DecidableEq

/-- Controller operations, in the order the code can perform them. -/
inductive Event where
  | connect
  | queryStatus
  | powerOn
  | close
deriving DecidableEq

/-- Code-level result of `sendIPMIPowerOn`: `ok` is a `nil` error, the other
constructors are the four distinct `fmt.Errorf` returns. -/
inductive SendResult where
  | ok
  | errCreateClient
  | errEstablishSession
  | errGetChassisStatus
  | errChassisControl
deriving DecidableEq

/-- `sendIPMIPowerOn` (main.go) against a controller model. -/
def sendIPMIPowerOn (b : BMC) : SendResult × List Event :=
  if !b.clientOk then (.errCreateClient, [])
  else if !b.connectOk then (.errEstablishSession, [.connect])
  else if !b.statusOk then (.errGetChassisStatus, [.connect, .queryStatus, .close])
  else if b.powerIsOn then (.ok, [.connect, .queryStatus, .close])
  else if b.powerUpOk then (.ok, [.connect, .queryStatus, .powerOn, .close])
  else (.errChassisControl, [.connect, .queryStatus, .powerOn, .close])

/-- Orchestration outcome vocabulary of the specification (§3). -/
inductive Outcome where
  | NoActionAlreadyOn
  | PowerOnIssued
  | QueryFailed
  | CommandFailed
deriving DecidableEq

/-- Reading of a code-level run in the specification's outcome vocabulary:
a `nil` error is `NoActionAlreadyOn` or `PowerOnIssued` according to whether
a power-up command was sent; session/query errors are `QueryFailed`; a
rejected power-up command is `CommandFailed`.  Client-creation failure has no
outcome in the spec's taxonomy. -/
def outcomeOf (r : SendResult × List Event) : Option Outcome :=
  match r.1 with
  | .ok => some (if Event.powerOn ∈ r.2 then .PowerOnIssued else .NoActionAlreadyOn)
  | .errCreateClient => none
  | .errEstablishSession => some .QueryFailed
  | .errGetChassisStatus => some .QueryFailed
  | .errChassisControl => some .CommandFailed

/-! ### Configuration resolution (`main`, main.go)

Go's `os.Getenv` returns `""` for an unset variable, so an environment
variable is modelled as a `String` that is empty iff the variable is unset
or empty. -/

/-- `getEnvOrDefault` (main.go). -/
def getEnvOrDefault (envValue defaultValue : String) : String :=
  if envValue ≠ "" then envValue else defaultValue

/-- `finalHost` resolution in `main`: flag value if non-empty, else
`IPMI_HOST`, else `"192.168.0.1"`. -/
def finalHost (flagVal envVal : String) : String :=
  if flagVal = "" then getEnvOrDefault envVal "192.168.0.1" else flagVal

/-- `finalUsername` resolution in `main`. -/
def finalUsername (flagVal envVal : String) : String :=
  if flagVal = "" then getEnvOrDefault envVal "admin" else flagVal

/-- `finalPassword` resolution in `main`. -/
def finalPassword (flagVal envVal : String) : String :=
  if flagVal = "" then getEnvOrDefault envVal "admin" else flagVal

/-- `finalMAC` resolution in `main`: start from the flag value (whose flag
default is `"00:11:22:33:44:55"`) and replace it by `WOL_MAC` whenever that
environment variable is non-empty. -/
def finalMAC (flagVal envVal : String) : String :=
  let envMAC := getEnvOrDefault envVal ""
  if envMAC ≠ "" then envMAC else flagVal

/-! ### Claim theorems -/

/-- C1: for every controller model whose session establishment and
power-state query succeed and report the target as ON, `sendIPMIPowerOn`
returns the `NoActionAlreadyOn` outcome (a non-error result) and issues zero
power-on commands. -/
theorem trigger_power_on_already_on :
    ∀ b : BMC, b.clientOk = true → b.connectOk = true → b.statusOk = true →
      b.powerIsOn = true →
      outcomeOf (sendIPMIPowerOn b) = some Outcome.NoActionAlreadyOn ∧
        (sendIPMIPowerOn b).1 = SendResult.ok ∧
        (sendIPMIPowerOn b).2.count Event.powerOn = 0 := by
  intro b
  obtain ⟨c1, c2, c3, c4, c5⟩ := b
  revert c1 c2 c3 c4 c5
  decide

/-- Witness for `trigger_power_on_already_on` at a concrete controller model. -/
theorem trigger_power_on_already_on_witness :
    outcomeOf (sendIPMIPowerOn ⟨true, true, true, true, true⟩) =
        some Outcome.NoActionAlreadyOn ∧
      (sendIPMIPowerOn ⟨true, true, true, true, true⟩).1 = SendResult.ok ∧
      (sendIPMIPowerOn ⟨true, true, true, true, true⟩).2.count Event.powerOn = 0 :=
  trigger_power_on_already_on ⟨true, true, true, true, true⟩ rfl rfl rfl rfl

/-- C2: for every controller model whose session establishment and
power-state query succeed and report OFF, `sendIPMIPowerOn` issues exactly
one power-on command, returning `PowerOnIssued` when it succeeds and
`CommandFailed` when it fails; and in every call at most one power-on
command is issued, only after a successful query reported OFF. -/
theorem trigger_power_on_when_off :
    (∀ b : BMC, b.clientOk = true → b.connectOk = true → b.statusOk = true →
      b.powerIsOn = false →
      (sendIPMIPowerOn b).2.count Event.powerOn = 1 ∧
        (b.powerUpOk = true →
          outcomeOf (sendIPMIPowerOn b) = some Outcome.PowerOnIssued) ∧
        (b.powerUpOk = false →
          outcomeOf (sendIPMIPowerOn b) = some Outcome.CommandFailed)) ∧
    ∀ b : BMC, (sendIPMIPowerOn b).2.count Event.powerOn ≤ 1 ∧
      (Event.powerOn ∈ (sendIPMIPowerOn b).2 →
        b.statusOk = true ∧ b.powerIsOn = false ∧
          (sendIPMIPowerOn b).2.indexOf Event.queryStatus <
            (sendIPMIPowerOn b).2.indexOf Event.powerOn) := by
  constructor
  all_goals
    intro b
    obtain ⟨c1, c2, c3, c4, c5⟩ := b
    revert c1 c2 c3 c4 c5
    decide

/-- Witness for `trigger_power_on_when_off` at a concrete controller model. -/
theorem trigger_power_on_when_off_witness :
    (sendIPMIPowerOn ⟨true, true, true, false, true⟩).2.count Event.powerOn = 1 ∧
      outcomeOf (sendIPMIPowerOn ⟨true, true, true, false, true⟩) =
        some Outcome.PowerOnIssued :=
  ⟨(trigger_power_on_when_off.1 ⟨true, true, true, false, true⟩ rfl rfl rfl rfl).1,
    (trigger_power_on_when_off.1 ⟨true, true, true, false, true⟩ rfl rfl rfl rfl).2.1 rfl⟩

/-- C3: for every controller model whose session establishment fails,
`sendIPMIPowerOn` returns the `QueryFailed` outcome (an error result)
without querying the power state, without issuing a power-on command, and
with exactly one session attempt. -/
theorem session_failure_no_action :
    ∀ b : BMC, b.clientOk = true → b.connectOk = false →
      outcomeOf (sendIPMIPowerOn b) = some Outcome.QueryFailed ∧
        (sendIPMIPowerOn b).1 = SendResult.errEstablishSession ∧
        Event.queryStatus ∉ (sendIPMIPowerOn b).2 ∧
        Event.powerOn ∉ (sendIPMIPowerOn b).2 ∧
        (sendIPMIPowerOn b).2.count Event.connect = 1 := by
  intro b
  obtain ⟨c1, c2, c3, c4, c5⟩ := b
  revert c1 c2 c3 c4 c5
  decide

/-- Witness for `session_failure_no_action` at a concrete controller model. -/
theorem session_failure_no_action_witness :
    outcomeOf (sendIPMIPowerOn ⟨true, false, true, true, true⟩) =
        some Outcome.QueryFailed ∧
      (sendIPMIPowerOn ⟨true, false, true, true, true⟩).1 =
        SendResult.errEstablishSession ∧
      Event.queryStatus ∉ (sendIPMIPowerOn ⟨true, false, true, true, true⟩).2 ∧
      Event.powerOn ∉ (sendIPMIPowerOn ⟨true, false, true, true, true⟩).2 ∧
      (sendIPMIPowerOn ⟨true, false, true, true, true⟩).2.count Event.connect = 1 :=
  session_failure_no_action ⟨true, false, true, true, true⟩ rfl rfl

/-- C9: on every path on which a session was established — success, failed
query, failed command — `sendIPMIPowerOn` releases the session exactly once,
as the last controller operation; it never exits leaving the session open. -/
theorem session_released_on_exit :
    ∀ b : BMC, b.clientOk = true → b.connectOk = true →
      (sendIPMIPowerOn b).2.getLast? = some Event.close ∧
        (sendIPMIPowerOn b).2.count Event.close = 1 := by
  intro b
  obtain ⟨c1, c2, c3, c4, c5⟩ := b
  revert c1 c2 c3 c4 c5
  decide

/-- Witness for `session_released_on_exit` at a concrete controller model. -/
theorem session_released_on_exit_witness :
    (sendIPMIPowerOn ⟨true, true, false, false, false⟩).2.getLast? =
        some Event.close ∧
      (sendIPMIPowerOn ⟨true, true, false, false, false⟩).2.count Event.close = 1 :=
  session_released_on_exit ⟨true, true, false, false, false⟩ rfl rfl

/-- C4: for every 6-byte address `m`, the 102-byte datagram of 6 bytes
`0xFF` followed by 16 repetitions of `m` validates for target `m` and for no
other 6-byte target. -/
theorem magicPacket_matches_only_its_target :
    ∀ m m' : List Nat, m.length = 6 → m'.length = 6 →
      isValidWOLPacket (magicPacket m) m = true ∧
        (m' ≠ m → isValidWOLPacket (magicPacket m) m' = false) := by
  intro m m' hm hm'
  refine ⟨(isValidWOLPacket_iff_eq _ m hm).mpr rfl, ?_⟩
  intro hne
  cases hv : isValidWOLPacket (magicPacket m) m' with
  | false => rfl
  | true =>
    exfalso
    have heq : magicPacket m = magicPacket m' :=
      (isValidWOLPacket_iff_eq _ m' hm').mp hv
    have hj : ∀ j, j < 6 → m.getD j 0 = m'.getD j 0 := by
      intro j hj6
      have h1 := magicPacket_getD_rep m hm j (by omega)
      have h2 := magicPacket_getD_rep m' hm' j (by omega)
      rw [Nat.mod_eq_of_lt hj6] at h1 h2
      rw [← h1, ← h2, heq]
    apply hne
    apply Eq.symm
    apply List.ext_getElem (by rw [hm, hm'])
    intro n h1 h2
    rw [← List.getD_eq_getElem m 0 h1, ← List.getD_eq_getElem m' 0 h2]
    exact hj n (by omega)

/-- Witness for `magicPacket_matches_only_its_target` at concrete addresses. -/
theorem magicPacket_matches_only_its_target_witness :
    isValidWOLPacket (magicPacket [0, 17, 34, 51, 68, 85]) [0, 17, 34, 51, 68, 85] = true ∧
      isValidWOLPacket (magicPacket [0, 17, 34, 51, 68, 85]) [1, 2, 3, 4, 5, 6] = false := by
  have h := magicPacket_matches_only_its_target [0, 17, 34, 51, 68, 85]
    [1, 2, 3, 4, 5, 6] (by decide) (by decide)
  exact ⟨h.1, h.2 (by decide)⟩

/-- C5: the UDP path accepts a datagram iff it is at least 102 bytes long and
its first 102 bytes validate; shorter datagrams are always rejected, and
bytes past the first 102 never affect the decision. -/
theorem udp_trigger_decision :
    ∀ d t : List Nat,
      (udpAccepts d t = true ↔
        102 ≤ d.length ∧ isValidWOLPacket (d.take 102) t = true) ∧
        (d.length < 102 → udpAccepts d t = false) ∧
        ∀ d' : List Nat, 102 ≤ d.length → 102 ≤ d'.length →
          d.take 102 = d'.take 102 → udpAccepts d t = udpAccepts d' t := by
  intro d t
  refine ⟨by simp [udpAccepts], ?_, ?_⟩
  · intro h
    unfold udpAccepts
    rw [decide_eq_false (by omega : ¬102 ≤ d.length)]
    simp
  · intro d' h1 h2 h3
    unfold udpAccepts
    rw [h3, decide_eq_true h1, decide_eq_true h2]

/-- Witness for `udp_trigger_decision`: the empty datagram is rejected. -/
theorem udp_trigger_decision_witness :
    udpAccepts [] [0, 17, 34, 51, 68, 85] = false :=
  (udp_trigger_decision [] [0, 17, 34, 51, 68, 85]).2.1 (by decide)

/-- C6: mutating any single byte of a valid 102-byte packet to a different
value invalidates it. -/
theorem single_byte_mutation_invalidates :
    ∀ (d m : List Nat) (i b : Nat), m.length = 6 →
      isValidWOLPacket d m = true → i < 102 → b ≠ d.getD i 0 →
      isValidWOLPacket (d.set i b) m = false := by
  intro d m i b hm hv hi hb
  have hd : d = magicPacket m := (isValidWOLPacket_iff_eq d m hm).mp hv
  have hlen : d.length = 102 := by rw [hd]; exact magicPacket_length m hm
  cases hv2 : isValidWOLPacket (d.set i b) m with
  | false => rfl
  | true =>
    exfalso
    have heq : d.set i b = magicPacket m := (isValidWOLPacket_iff_eq _ m hm).mp hv2
    have hsame : (d.set i b).getD i 0 = d.getD i 0 := by rw [heq, ← hd]
    have hset : (d.set i b).getD i 0 = b := by
      rw [List.getD_eq_getElem _ 0 (by rw [List.length_set, hlen]; exact hi)]
      exact List.getElem_set_self _
    exact hb (by rw [← hset, hsame])

/-- Witness for `single_byte_mutation_invalidates`: flipping the first sync
byte of a concrete valid packet invalidates it. -/
theorem single_byte_mutation_invalidates_witness :
    isValidWOLPacket ((magicPacket [0, 17, 34, 51, 68, 85]).set 0 7)
      [0, 17, 34, 51, 68, 85] = false :=
  single_byte_mutation_invalidates (magicPacket [0, 17, 34, 51, 68, 85])
    [0, 17, 34, 51, 68, 85] 0 7 (by decide) (by decide) (by decide) (by decide)

/-- C7 counterexample: `parseMAC` accepts an 8-octet EUI-64 address and
returns 8 bytes, so it does not always fail or return exactly 6 bytes. -/
theorem parseMAC_eight_octets :
    parseMAC ("00:11:22:33:44:55:66:77".toList) =
        some [0, 17, 34, 51, 68, 85, 102, 119] ∧
      ([0, 17, 34, 51, 68, 85, 102, 119] : List Nat).length ≠ 6 := by
  exact ⟨by decide, by decide⟩

/-- C7 (amended): `parseMAC` either fails or returns an address of exactly
6, 8 or 20 bytes, and text with the wrong octet count such as `"00:11:22"`
fails. -/
theorem parseMAC_result_length :
    (∀ (s : List Char) (l : List Nat), parseMAC s = some l →
        l.length = 6 ∨ l.length = 8 ∨ l.length = 20) ∧
      parseMAC ("00:11:22".toList) = none := by
  exact ⟨fun _ l h => ParseMAC_length _ l h, by decide⟩

/-- Witness for `parseMAC_result_length` at a concrete parse. -/
theorem parseMAC_result_length_witness :
    ([0, 17, 34, 51, 68, 85] : List Nat).length = 6 ∨
      ([0, 17, 34, 51, 68, 85] : List Nat).length = 8 ∨
      ([0, 17, 34, 51, 68, 85] : List Nat).length = 20 :=
  parseMAC_result_length.1 ("00:11:22:33:44:55".toList) [0, 17, 34, 51, 68, 85]
    (by decide)

/-- C8 counterexample: for the target MAC a non-empty `WOL_MAC` environment
value overrides a value supplied on the command line, so the command line
does not take precedence for every configuration value. -/
theorem finalMAC_env_overrides_flag :
    finalMAC "aa:aa:aa:aa:aa:aa" "bb:bb:bb:bb:bb:bb" = "bb:bb:bb:bb:bb:bb" ∧
      ("bb:bb:bb:bb:bb:bb" : String) ≠ "aa:aa:aa:aa:aa:aa" := by
  exact ⟨by decide, by decide⟩

/-- C8 (amended): for host, username and password a non-empty command-line
value overrides the environment and the environment overrides the built-in
default, while for the target MAC a non-empty `WOL_MAC` environment value
overrides the command-line value (including the flag's built-in default),
which is used only when `WOL_MAC` is unset or empty. -/
theorem config_resolution_precedence :
    (∀ fl en : String, fl ≠ "" →
        finalHost fl en = fl ∧ finalUsername fl en = fl ∧ finalPassword fl en = fl) ∧
      (∀ en : String, en ≠ "" →
        finalHost "" en = en ∧ finalUsername "" en = en ∧ finalPassword "" en = en) ∧
      (finalHost "" "" = "192.168.0.1" ∧ finalUsername "" "" = "admin" ∧
        finalPassword "" "" = "admin") ∧
      ∀ fl en : String,
        (en ≠ "" → finalMAC fl en = en) ∧ (en = "" → finalMAC fl en = fl) := by
  refine ⟨?_, ?_, ?_, ?_⟩
  · intro fl en h
    simp [finalHost, finalUsername, finalPassword, h]
  · intro en h
    simp [finalHost, finalUsername, finalPassword, getEnvOrDefault, h]
  · exact ⟨rfl, rfl, rfl⟩
  · intro fl en
    constructor
    · intro h
      simp [finalMAC, getEnvOrDefault, h]
    · intro h
      simp [finalMAC, getEnvOrDefault, h]

/-- Witness for `config_resolution_precedence` at concrete values. -/
theorem config_resolution_precedence_witness :
    finalHost "10.0.0.2" "10.0.0.9" = "10.0.0.2" ∧
      finalUsername "root" "operator" = "root" ∧
      finalPassword "s3cret" "other" = "s3cret" :=
  config_resolution_precedence.1 "10.0.0.2" "10.0.0.9" (by decide) |>.imp id
    fun h => ⟨(config_resolution_precedence.1 "root" "operator" (by decide)).2.1,
      (config_resolution_precedence.1 "s3cret" "other" (by decide)).2.2⟩

/-- C10: for a target of at least 6 bytes every access of the validator is
in bounds — the bounds-checked run returns the validator's verdict instead
of panicking — and the verdict equals the one for the target's first 6
bytes, so longer addresses accepted by `parseMAC` are matched solely by
their first 6 bytes. -/
theorem validator_in_bounds_take6 :
    ∀ data target : List Nat, 6 ≤ target.length →
      isValidWOLPacketChecked data target = some (isValidWOLPacket data target) ∧
        isValidWOLPacket data target = isValidWOLPacket data (target.take 6) := by
  intro data target h
  exact ⟨isValidWOLPacketChecked_eq data target h,
    (isValidWOLPacket_take data target).symm⟩

/-- Witness for `validator_in_bounds_take6` with an 8-byte target. -/
theorem validator_in_bounds_take6_witness :
    isValidWOLPacketChecked (magicPacket [1, 2, 3, 4, 5, 6]) [1, 2, 3, 4, 5, 6, 7, 8] =
        some (isValidWOLPacket (magicPacket [1, 2, 3, 4, 5, 6]) [1, 2, 3, 4, 5, 6, 7, 8]) ∧
      isValidWOLPacket (magicPacket [1, 2, 3, 4, 5, 6]) [1, 2, 3, 4, 5, 6, 7, 8] =
        isValidWOLPacket (magicPacket [1, 2, 3, 4, 5, 6])
          (List.take 6 [1, 2, 3, 4, 5, 6, 7, 8]) :=
  validator_in_bounds_take6 (magicPacket [1, 2, 3, 4, 5, 6]) [1, 2, 3, 4, 5, 6, 7, 8]
    (by decide)

end Ipmipower
